import Mathlib

/-!
Shallow embedding of `src/main.cpp` (namespace `metrics`): an in-process
instrumentation core with three token kinds (timing, count, gauge) and a
registry that hands out named tokens.

Modelling conventions:
* `chrono::time_point` / `chrono::nanoseconds` are nanosecond counts since the
  system-clock epoch, represented as `Int`; a value-initialised `time_point`
  is the epoch, i.e. `0`, and a value-initialised duration is `0`.
* `count_type` is C++ `unsigned long` (64 bits here): values are `Nat` and
  every update is reduced `% 2 ^ 64`, matching unsigned wraparound.
* `gauged_type` is C++ `double`; the program only stores, loads and
  zero-initialises gauge values (no floating-point arithmetic ever occurs on
  them), so the payload is modelled as `Int` with `0` as the
  value-initialised default.
* `std::vector` is a `List`. `vector<T> v{10 * 1000 * 1000}` selects the
  `vector(size_type)` constructor (an `int` is not convertible to the pair
  element types, so the `initializer_list` constructor is not viable): it
  constructs ten million value-initialised ELEMENTS, it does not `reserve`
  capacity.  Hence the initial list is `List.replicate (10 * 1000 * 1000)`
  of the value-initialised pair.
* `clock::now()` is an external oracle: every operation that reads the clock
  takes the observed instant as an explicit argument.
* `std::unordered_map` is an association list looked up by key; `emplace`
  inserts only when the key is absent; references returned by the registry
  are modelled as lookups by name.
-/

namespace Metrics

abbrev time_point := Int

abbrev period := Int

abbrev count_type := Nat

abbrev gauged_type := Int

abbrev dur_at_time := time_point × period

abbrev count_at_time := time_point × count_type

abbrev gauge_at_time := time_point × gauged_type

/-- Modulus of C++ `unsigned long` (64-bit) arithmetic. -/
def count_mod : Nat := 2 ^ 64

/-- The element count of `vector<...> v{10 * 1000 * 1000}`: ten million
value-initialised entries, written exactly as in the source. -/
def preallocCount : Nat := 10 * 1000 * 1000

/-- `token::time_token`: its state is the `durations` vector. -/
structure time_token where
  durations : List dur_at_time

/-- A freshly constructed `time_token` (what `registry::run` emplaces):
`vector<dur_at_time> durations{10 * 1000 * 1000}` value-initialises ten
million `(time_point, period)` pairs — epoch paired with a zero duration. -/
def time_token.init : time_token :=
  ⟨List.replicate preallocCount (0, 0)⟩

/-- `time_token::stopper`: records the `start` instant captured by
`time_token::operator()`; the reference it holds to its token is made
explicit in `time_token.stop`. -/
structure time_token.stopper where
  start : time_point

/-- `time_token::operator()`: `return {clock::now(), *this}` — captures the
current instant into a `stopper`. -/
def time_token.start (_tok : time_token) (now : time_point) : time_token.stopper :=
  ⟨now⟩

/-- `stopper::stop`: `durations.emplace_back(now, duration_cast<period>(now - start))`. -/
def time_token.stop (tok : time_token) (sw : time_token.stopper) (now : time_point) :
    time_token :=
  ⟨tok.durations ++ [(now, now - sw.start)]⟩

/-- A sequence of `stop()` calls on one stopwatch, at the given observed
instants (the source allows calling `stop()` any number of times). -/
def time_token.stopN : time_token → time_token.stopper → List time_point → time_token
  | tok, _, [] => tok
  | tok, sw, now :: rest => (tok.stop sw now).stopN sw rest

/-- `token::count_token`: the `counts` vector plus the atomic running total
`current` (always a reduced 64-bit value). -/
structure count_token where
  counts : List count_at_time
  current : count_type

/-- A freshly constructed `count_token`: ten million value-initialised
`(time_point, count_type)` pairs and `current{0}`. -/
def count_token.init : count_token :=
  ⟨List.replicate preallocCount (0, 0), 0⟩

/-- `count_token::operator+=`: `counts.emplace_back(clock::now(), current += many)`.
The atomic `current += many` wraps at 2^64 and its resulting value is exactly
what the appended sample records. -/
def count_token.incr (tok : count_token) (now : time_point) (many : count_type) :
    count_token :=
  ⟨tok.counts ++ [(now, (tok.current + many) % count_mod)],
   (tok.current + many) % count_mod⟩

/-- A sequence of `increment(by=k)` calls, each with its observed instant. -/
def count_token.incrList : count_token → List (time_point × count_type) → count_token
  | tok, [] => tok
  | tok, (now, k) :: rest => (tok.incr now k).incrList rest

/-- The samples a sequence of increments appends when the running total
starts at `c` (each sample records the post-increment total). -/
def count_samples : count_type → List (time_point × count_type) → List count_at_time
  | _, [] => []
  | c, (now, k) :: rest =>
      (now, (c + k) % count_mod) :: count_samples ((c + k) % count_mod) rest

/-- `token::gauge_token`: its state is the `readings` vector. -/
structure gauge_token where
  readings : List gauge_at_time

/-- A freshly constructed `gauge_token`: ten million value-initialised
`(time_point, gauged_type)` pairs. -/
def gauge_token.init : gauge_token :=
  ⟨List.replicate preallocCount (0, 0)⟩

/-- `gauge_token::set`: `readings.emplace_back(clock::now(), val)`. -/
def gauge_token.set (tok : gauge_token) (now : time_point) (val : gauged_type) :
    gauge_token :=
  ⟨tok.readings ++ [(now, val)]⟩

/-- `gauge_token::operator gauged_type`:
`readings.empty() ? static_cast<gauged_type>(0) : readings.back().second`. -/
def gauge_token.current_value (tok : gauge_token) : gauged_type :=
  match tok.readings.getLast? with
  | none => 0
  | some p => p.2

/-- The gauge states reachable through the public interface: a fresh token
from the registry, mutated only by `set` (`operator=` delegates to `set`). -/
inductive gauge_reachable : gauge_token → Prop
  | init : gauge_reachable gauge_token.init
  | set (t : gauge_token) (now : time_point) (v : gauged_type) :
      gauge_reachable t → gauge_reachable (t.set now v)

/-- First-match lookup in an association list (`unordered_map` keys are
unique, so first match is the entry). -/
def alist_find {α : Type} : List (String × α) → String → Option α
  | [], _ => none
  | (k, v) :: rest, name => if k = name then some v else alist_find rest name

/-- `unordered_map::emplace`: inserts only when the key is absent, never
replaces an existing entry. -/
def alist_emplace {α : Type} (l : List (String × α)) (name : String) (v : α) :
    List (String × α) :=
  if (alist_find l name).isSome then l else l ++ [(name, v)]

/-- Mutation through a handle: the entry for `name` is updated in place
(modelling a write through the reference `unordered_map::at` returned). -/
def alist_modify {α : Type} : List (String × α) → String → (α → α) → List (String × α)
  | [], _, _ => []
  | (k, v) :: rest, name, f =>
      if k = name then (k, f v) :: alist_modify rest name f
      else (k, v) :: alist_modify rest name f

/-- `metrics::registry`: one name-keyed mapping per token kind. -/
structure registry where
  timers : List (String × time_token)
  counters : List (String × count_token)
  gauges : List (String × gauge_token)

/-- `registry::create`: all three maps start empty (`= {}`). -/
def registry.create : registry :=
  ⟨[], [], []⟩

/-- `registry::run`: `timers.emplace(name, Internal{}); return timers.at(name);`
— the state effect; the returned reference is `timerAt`. -/
def registry.run (r : registry) (name : String) : registry :=
  { r with timers := alist_emplace r.timers name time_token.init }

/-- `registry::count`: same shape as `registry::run`, on `counters`. -/
def registry.count (r : registry) (name : String) : registry :=
  { r with counters := alist_emplace r.counters name count_token.init }

/-- `registry::gauge`: same shape as `registry::run`, on `gauges`. -/
def registry.gauge (r : registry) (name : String) : registry :=
  { r with gauges := alist_emplace r.gauges name gauge_token.init }

/-- The reference `registry::run` returns: `timers.at(name)`. -/
def registry.timerAt (r : registry) (name : String) : Option time_token :=
  alist_find r.timers name

/-- The reference `registry::count` returns: `counters.at(name)`. -/
def registry.counterAt (r : registry) (name : String) : Option count_token :=
  alist_find r.counters name

/-- The reference `registry::gauge` returns: `gauges.at(name)`. -/
def registry.gaugeAt (r : registry) (name : String) : Option gauge_token :=
  alist_find r.gauges name

/-- Recording a stop through a previously obtained timer handle. -/
def registry.timerStop (r : registry) (name : String) (sw : time_token.stopper)
    (now : time_point) : registry :=
  { r with timers := alist_modify r.timers name fun t => t.stop sw now }

/-- Recording an increment through a previously obtained counter handle. -/
def registry.counterIncr (r : registry) (name : String) (now : time_point)
    (k : count_type) : registry :=
  { r with counters := alist_modify r.counters name fun t => t.incr now k }

/-- Recording a set through a previously obtained gauge handle. -/
def registry.gaugeSet (r : registry) (name : String) (now : time_point)
    (v : gauged_type) : registry :=
  { r with gauges := alist_modify r.gauges name fun t => t.set now v }

/-- Raw memory view of a `std::vector`: cell contents and a length field.
`count_token::operator+=` and `stopper::stop` call `emplace_back` on a plain
`std::vector` with no lock and no atomics on the vector itself, so a call
decomposes into non-atomic micro-steps: read `len`, write the element at that
index, store `len + 1`. -/
structure raw_vec (α : Type) where
  data : Nat → Option α
  len : Nat

/-- Store element `x` at cell `i` (the element-construction step of
`emplace_back`). -/
def raw_vec.write {α : Type} (v : raw_vec α) (i : Nat) (x : α) : raw_vec α :=
  ⟨fun j => if j = i then some x else v.data j, v.len⟩

/-- Store a new length (the size-update step of `emplace_back`). -/
def raw_vec.set_len {α : Type} (v : raw_vec α) (n : Nat) : raw_vec α :=
  ⟨v.data, n⟩

/-- One interleaving of two concurrent unsynchronised `emplace_back` calls on
the same vector, permitted because the source takes no lock: thread 1 and
thread 2 both read `len` (= `v.len`), then thread 1 writes `x` at that index
and stores `len + 1`, then thread 2 writes `y` at the same index and stores
the same `len + 1`. -/
def racy_two_appends {α : Type} (v : raw_vec α) (x y : α) : raw_vec α :=
  (((v.write v.len x).set_len (v.len + 1)).write v.len y).set_len (v.len + 1)

/-! ## Helper lemmas -/

/-- Repeated `stop()` appends one sample per call, each elapsed value measured
from the stopwatch's fixed `start`. -/
theorem stopN_durations (tok : time_token) (sw : time_token.stopper)
    (ts : List time_point) :
    (tok.stopN sw ts).durations
      = tok.durations ++ ts.map fun now => (now, now - sw.start) := by
  induction ts generalizing tok with
  | nil => simp [time_token.stopN]
  | cons now rest ih =>
    simp [time_token.stopN, ih, time_token.stop, List.append_assoc]

/-- A sequence of increments appends exactly `count_samples` after the
existing contents. -/
theorem incrList_counts (tok : count_token) (evs : List (time_point × count_type)) :
    (tok.incrList evs).counts = tok.counts ++ count_samples tok.current evs := by
  induction evs generalizing tok with
  | nil => simp [count_token.incrList, count_samples]
  | cons e rest ih =>
    obtain ⟨now, k⟩ := e
    simp [count_token.incrList, count_samples, ih, count_token.incr,
      List.append_assoc]

/-- The running total after a sequence of increments is the (wrapped) sum of
the starting total and all the increment amounts. -/
theorem incrList_current (tok : count_token) (evs : List (time_point × count_type))
    (h : tok.current < count_mod) :
    (tok.incrList evs).current
      = (tok.current + (evs.map Prod.snd).sum) % count_mod := by
  induction evs generalizing tok with
  | nil => simpa [count_token.incrList] using (Nat.mod_eq_of_lt h).symm
  | cons e rest ih =>
    obtain ⟨now, k⟩ := e
    have hstep : count_token.incrList tok ((now, k) :: rest)
        = (tok.incr now k).incrList rest := rfl
    have hm : (tok.incr now k).current < count_mod := by
      simp only [count_token.incr]
      exact Nat.mod_lt _ (by norm_num [count_mod])
    rw [hstep, ih _ hm]
    simp [count_token.incr, Nat.mod_add_mod, Nat.add_assoc]

/-- `count_samples` produces one sample per increment. -/
theorem count_samples_length (c : count_type) (evs : List (time_point × count_type)) :
    (count_samples c evs).length = evs.length := by
  induction evs generalizing c with
  | nil => rfl
  | cons e rest ih =>
    obtain ⟨now, k⟩ := e
    simp [count_samples, ih]

/-- The `i`-th sample of `count_samples c evs` records the wrapped sum of `c`
and the first `i + 1` increment amounts. -/
theorem count_samples_snd_getElem (evs : List (time_point × count_type))
    (c : count_type) (i : Nat) (h : i < evs.length) :
    ((count_samples c evs).map Prod.snd)[i]?
      = some ((c + ((evs.take (i + 1)).map Prod.snd).sum) % count_mod) := by
  induction evs generalizing c i with
  | nil => simp at h
  | cons e rest ih =>
    obtain ⟨now, k⟩ := e
    cases i with
    | zero => simp [count_samples]
    | succ j =>
      have hj : j < rest.length := by simpa using h
      simp only [count_samples, List.map_cons, List.getElem?_cons_succ]
      rw [ih _ _ hj]
      simp [List.take_succ_cons, Nat.mod_add_mod, Nat.add_assoc]

/-- An entry found in the left part of an appended association list is still
the first match in the whole list. -/
theorem alist_find_append_left {α : Type} {l₁ : List (String × α)}
    (l₂ : List (String × α)) {q : String} {t : α} (h : alist_find l₁ q = some t) :
    alist_find (l₁ ++ l₂) q = some t := by
  induction l₁ with
  | nil => simp [alist_find] at h
  | cons p rest ih =>
    obtain ⟨k, v⟩ := p
    by_cases hk : k = q
    · subst hk
      simp only [alist_find, if_pos rfl] at h
      simp only [List.cons_append, alist_find, if_pos rfl]
      exact h
    · simp only [List.cons_append, alist_find, if_neg hk] at h ⊢
      exact ih h

/-- Looking a key up past a left part that does not contain it. -/
theorem alist_find_append_right {α : Type} {l₁ : List (String × α)}
    (l₂ : List (String × α)) {q : String} (h : alist_find l₁ q = none) :
    alist_find (l₁ ++ l₂) q = alist_find l₂ q := by
  induction l₁ with
  | nil => simp
  | cons p rest ih =>
    obtain ⟨k, v⟩ := p
    by_cases hk : k = q
    · simp [alist_find, hk] at h
    · simp only [List.cons_append, alist_find, if_neg hk] at h ⊢
      exact ih h

/-- After `emplace`, the key is present. -/
theorem alist_find_emplace_self {α : Type} (l : List (String × α)) (name : String)
    (v : α) : (alist_find (alist_emplace l name v) name).isSome := by
  unfold alist_emplace
  by_cases h : (alist_find l name).isSome
  · rw [if_pos h]
    exact h
  · have hn : alist_find l name = none := Option.not_isSome_iff_eq_none.mp h
    rw [if_neg h, alist_find_append_right _ hn]
    simp [alist_find]

/-- `emplace` on a present key changes nothing. -/
theorem alist_emplace_of_found {α : Type} {l : List (String × α)} {name : String}
    (h : (alist_find l name).isSome) (w : α) : alist_emplace l name w = l := by
  unfold alist_emplace
  rw [if_pos h]

/-- Two successive `emplace` calls with the same key leave exactly the state
after the first one. -/
theorem alist_emplace_idem {α : Type} (l : List (String × α)) (name : String)
    (v w : α) :
    alist_emplace (alist_emplace l name v) name w = alist_emplace l name v :=
  alist_emplace_of_found (alist_find_emplace_self l name v) w

/-- `emplace` never replaces or removes an existing entry. -/
theorem alist_find_emplace_preserved {α : Type} {l : List (String × α)} {q : String}
    {t : α} (name : String) (v : α) (h : alist_find l q = some t) :
    alist_find (alist_emplace l name v) q = some t := by
  unfold alist_emplace
  split
  · exact h
  · exact alist_find_append_left _ h

/-- Mutating through a handle is observable through any later lookup of the
same name. -/
theorem alist_find_modify_self {α : Type} (l : List (String × α)) (name : String)
    (f : α → α) :
    alist_find (alist_modify l name f) name = Option.map f (alist_find l name) := by
  induction l with
  | nil => rfl
  | cons p rest ih =>
    obtain ⟨k, v⟩ := p
    by_cases hk : k = name
    · subst hk
      simp [alist_modify, alist_find, ih]
    · simp [alist_modify, alist_find, hk, ih]

/-- The last element of a non-empty replicated list is the replicated value. -/
theorem getLast?_replicate_succ {α : Type} (n : Nat) (x : α) :
    (List.replicate (n + 1) x).getLast? = some x := by
  induction n with
  | zero => simp
  | succ m ih =>
    rw [List.replicate_succ, List.replicate_succ, List.getLast?_cons_cons,
      ← List.replicate_succ]
    exact ih

/-- The last entry of a fresh gauge store is the value-initialised pair. -/
theorem gauge_init_getLast :
    gauge_token.init.readings.getLast? = some ((0 : Int), (0 : Int)) := by
  show (List.replicate preallocCount ((0 : Int), (0 : Int))).getLast? = _
  rw [show preallocCount = 9999999 + 1 from by norm_num [preallocCount]]
  exact getLast?_replicate_succ _ _

/-- `current_value` is the value field of the last reading, whenever the
store is non-empty. -/
theorem current_value_eq_getLast (tok : gauge_token) (p : gauge_at_time)
    (h : tok.readings.getLast? = some p) : tok.current_value = p.2 := by
  unfold gauge_token.current_value
  rw [h]

/-- Reading a never-set gauge yields `0` (the value field of the last
value-initialised entry). -/
theorem gauge_init_current_value : gauge_token.init.current_value = 0 :=
  current_value_eq_getLast gauge_token.init ((0 : Int), (0 : Int)) gauge_init_getLast

/-! ## Claims -/

/-- C1 counterexample: the claim as stated fails because `current` is a C++
`unsigned long` and wraps: two `increment(2^63)` calls on a fresh counter
leave the running total at `0`, not at the mathematical sum `2^63 + 2^63`. -/
theorem counter_total_overflow_cex :
    (count_token.init.incrList
        [((0 : Int), 2 ^ 63), ((0 : Int), 2 ^ 63)]).current
      ≠ 2 ^ 63 + 2 ^ 63 := by
  have h0 : count_token.init.current < count_mod := by
    norm_num [count_token.init, count_mod]
  rw [incrList_current count_token.init _ h0]
  norm_num [count_token.init, count_mod, List.map_cons, List.map_nil,
    List.sum_cons, List.sum_nil]

/-- C1 (amended): for every sequence of `increment(by=k)` calls on one fresh
counter obtained from the registry, the final running total is the sum of all
the amounts reduced modulo `2^64`, and the `i`-th appended sample's
`cumulative_total` is the sum of the first `i + 1` amounts reduced modulo
`2^64` (the appended samples are the ones past the ten million
value-initialised entries). -/
theorem counter_totals_mod (evs : List (time_point × count_type)) :
    (∀ name : String,
        (registry.create.count name).counterAt name = some count_token.init)
    ∧ (count_token.init.incrList evs).current
        = (evs.map Prod.snd).sum % count_mod
    ∧ ∀ i : Nat, i < evs.length →
        (((count_token.init.incrList evs).counts.drop preallocCount).map
            Prod.snd)[i]?
          = some (((evs.take (i + 1)).map Prod.snd).sum % count_mod) := by
  refine ⟨?_, ?_, ?_⟩
  · intro name
    simp [registry.create, registry.count, registry.counterAt, alist_emplace,
      alist_find]
  · have h0 : count_token.init.current < count_mod := by
      norm_num [count_token.init, count_mod]
    simpa [count_token.init] using incrList_current count_token.init evs h0
  · intro i hi
    rw [incrList_counts]
    have hlen : count_token.init.counts.length = preallocCount := by
      simp [count_token.init]
    rw [← hlen, List.drop_left]
    simpa [count_token.init] using
      count_samples_snd_getElem evs count_token.init.current i hi

/-- C1 witness: two increments of 5 then 7 on a fresh counter leave the total
at 12 and the second appended sample records 12. -/
theorem counter_totals_mod_witness :
    (count_token.init.incrList
        [((3 : Int), (5 : Nat)), ((4 : Int), (7 : Nat))]).current = 12
    ∧ (((count_token.init.incrList
          [((3 : Int), (5 : Nat)), ((4 : Int), (7 : Nat))]).counts.drop
            preallocCount).map Prod.snd)[1]? = some 12 := by
  have h := counter_totals_mod [((3 : Int), (5 : Nat)), ((4 : Int), (7 : Nat))]
  refine ⟨?_, ?_⟩
  · rw [h.2.1]
    decide
  · rw [h.2.2 1 (by decide)]
    decide

/-- C2: obtaining the same name twice from the registry (for each of the
three kinds) returns the same underlying recorder: the second `obtain` call
leaves the registry exactly as the first left it (no entry is replaced or
removed), and a sample recorded through the first handle is observable
through a lookup via the second handle. -/
theorem obtain_same_instance :
    (∀ (r : registry) (name : String), (r.run name).run name = r.run name)
    ∧ (∀ (r : registry) (name : String), (r.count name).count name = r.count name)
    ∧ (∀ (r : registry) (name : String), (r.gauge name).gauge name = r.gauge name)
    ∧ (∀ (r : registry) (name : String) (sw : time_token.stopper)
          (now : time_point),
        ((r.run name).timerStop name sw now).timerAt name
          = Option.map (fun t => t.stop sw now) ((r.run name).timerAt name))
    ∧ (∀ (r : registry) (name : String) (now : time_point) (k : count_type),
        ((r.count name).counterIncr name now k).counterAt name
          = Option.map (fun t => t.incr now k) ((r.count name).counterAt name))
    ∧ ∀ (r : registry) (name : String) (now : time_point) (v : gauged_type),
        ((r.gauge name).gaugeSet name now v).gaugeAt name
          = Option.map (fun t => t.set now v) ((r.gauge name).gaugeAt name) := by
  refine ⟨?_, ?_, ?_, ?_, ?_, ?_⟩
  · intro r name
    simp only [registry.run]
    rw [alist_emplace_idem]
  · intro r name
    simp only [registry.count]
    rw [alist_emplace_idem]
  · intro r name
    simp only [registry.gauge]
    rw [alist_emplace_idem]
  · intro r name sw now
    simp only [registry.run, registry.timerStop, registry.timerAt]
    rw [alist_find_modify_self]
  · intro r name now k
    simp only [registry.count, registry.counterIncr, registry.counterAt]
    rw [alist_find_modify_self]
  · intro r name now v
    simp only [registry.gauge, registry.gaugeSet, registry.gaugeAt]
    rw [alist_find_modify_self]

/-- C3: stopping one stopwatch `N` times appends exactly `N` duration
samples; the `i`-th appended sample's elapsed value is the `i`-th stop
instant minus the single original start instant; and when the stop instants
are non-decreasing (successive clock reads in one thread), so are the
appended elapsed values. -/
theorem stopwatch_multi_stop (tok : time_token) (s : time_point)
    (ts : List time_point) :
    ((tok.stopN (tok.start s) ts).durations
        = tok.durations ++ ts.map fun now => (now, now - s))
    ∧ ((tok.stopN (tok.start s) ts).durations.length
        = tok.durations.length + ts.length)
    ∧ (∀ i : Nat,
        ((tok.stopN (tok.start s) ts).durations.drop tok.durations.length)[i]?
          = ts[i]?.map fun now => (now, now - s))
    ∧ (List.Chain' (· ≤ ·) ts →
        List.Chain' (· ≤ ·)
          (((tok.stopN (tok.start s) ts).durations.drop
              tok.durations.length).map Prod.snd)) := by
  have hd : (tok.stopN (tok.start s) ts).durations
      = tok.durations ++ ts.map fun now => (now, now - s) := by
    simpa [time_token.start] using stopN_durations tok (tok.start s) ts
  refine ⟨hd, ?_, ?_, ?_⟩
  · rw [hd]
    simp
  · intro i
    rw [hd, List.drop_left, List.getElem?_map]
  · intro hc
    rw [hd, List.drop_left, List.map_map]
    exact List.chain'_map_of_chain' _ (fun a b hab => sub_le_sub_right hab s) hc

/-- C3 witness: starting at instant 2 and stopping at instants 5 and 7
appends samples with elapsed values 3 and 5, which are non-decreasing. -/
theorem stopwatch_multi_stop_witness :
    (((⟨[]⟩ : time_token).stopN ((⟨[]⟩ : time_token).start 2) [5, 7]).durations.drop
        (⟨[]⟩ : time_token).durations.length)[1]? = some ((7 : Int), (5 : Int))
    ∧ List.Chain' (· ≤ ·)
        ((((⟨[]⟩ : time_token).stopN ((⟨[]⟩ : time_token).start 2) [5, 7]).durations.drop
            (⟨[]⟩ : time_token).durations.length).map Prod.snd) := by
  obtain ⟨h1, h2, h3, h4⟩ := stopwatch_multi_stop ⟨[]⟩ 2 [5, 7]
  refine ⟨?_, h4 (by norm_num [List.chain'_cons, List.chain'_singleton])⟩
  rw [h3 1]
  decide

/-- C4 (claim is right, code is wrong): the brace initialiser is not a
capacity reservation.  After 100 `increment(1)` calls on a fresh counter the
store holds 10,000,100 entries — the 10,000,000 value-initialised entries are
visible contents, not a capacity hint — where the claim (and the source's own
"pre-allocate heap-space" comment and the gauge's dead `empty()` branch)
expects exactly 100. -/
theorem store_not_capacity_hint :
    (count_token.init.incrList
        (List.replicate 100 ((0 : Int), (1 : Nat)))).counts.length = 10000100
    ∧ (10000100 : Nat) ≠ 100 := by
  refine ⟨?_, by decide⟩
  rw [incrList_counts]
  simp only [List.length_append, count_samples_length, List.length_replicate,
    count_token.init, preallocCount]

/-- C5: a gauge fresh from the registry reads `0` before any `set()` call,
and after any `set(v)` — on any gauge state whatsoever — `current_value()`
returns `v`, the value of the most recently appended sample. -/
theorem gauge_current_value_spec :
    gauge_token.init.current_value = 0
    ∧ ∀ (t : gauge_token) (now : time_point) (v : gauged_type),
        (t.set now v).current_value = v := by
  refine ⟨gauge_init_current_value, fun t now v => ?_⟩
  exact current_value_eq_getLast _ (now, v)
    (by simp [gauge_token.set, List.getLast?_concat])

/-- C6: every mutating operation only appends — the previous store contents
are a prefix of the new contents — and registry lookups (`obtain_*`) never
modify or remove any existing entry. -/
theorem append_only_ops :
    (∀ (tok : time_token) (sw : time_token.stopper) (now : time_point),
        tok.durations <+: (tok.stop sw now).durations)
    ∧ (∀ (tok : count_token) (now : time_point) (k : count_type),
        tok.counts <+: (tok.incr now k).counts)
    ∧ (∀ (tok : gauge_token) (now : time_point) (v : gauged_type),
        tok.readings <+: (tok.set now v).readings)
    ∧ (∀ (r : registry) (name q : String) (t : time_token),
        r.timerAt q = some t → (r.run name).timerAt q = some t)
    ∧ (∀ (r : registry) (name q : String) (t : count_token),
        r.counterAt q = some t → (r.count name).counterAt q = some t)
    ∧ ∀ (r : registry) (name q : String) (t : gauge_token),
        r.gaugeAt q = some t → (r.gauge name).gaugeAt q = some t := by
  refine ⟨?_, ?_, ?_, ?_, ?_, ?_⟩
  · exact fun tok sw now => ⟨[(now, now - sw.start)], rfl⟩
  · exact fun tok now k => ⟨[(now, (tok.current + k) % count_mod)], rfl⟩
  · exact fun tok now v => ⟨[(now, v)], rfl⟩
  · intro r name q t h
    simp only [registry.timerAt] at h
    simp only [registry.run, registry.timerAt]
    exact alist_find_emplace_preserved name time_token.init h
  · intro r name q t h
    simp only [registry.counterAt] at h
    simp only [registry.count, registry.counterAt]
    exact alist_find_emplace_preserved name count_token.init h
  · intro r name q t h
    simp only [registry.gaugeAt] at h
    simp only [registry.gauge, registry.gaugeAt]
    exact alist_find_emplace_preserved name gauge_token.init h

/-- C6 witness: registering "b" after "a" leaves "a"'s timer untouched, and
one concrete stop call extends the store by appending. -/
theorem append_only_ops_witness :
    ((registry.create.run "a").run "b").timerAt "a" = some time_token.init
    ∧ time_token.init.durations <+:
        (time_token.init.stop (time_token.init.start 0) 1).durations := by
  refine ⟨?_, append_only_ops.1 time_token.init (time_token.init.start 0) 1⟩
  refine append_only_ops.2.2.2.1 (registry.create.run "a") "b" "a"
    time_token.init ?_
  simp [registry.create, registry.run, registry.timerAt, alist_emplace,
    alist_find]

/-- C7: the operations are total — `increment(0)` succeeds and appends a
sample recording the unchanged running total; `stop()` is callable any
number of times, each call appending; reading a never-set gauge yields `0`
rather than failing; and every `obtain_*` lookup finds its entry (the
`at(name)` call after `emplace` cannot throw). -/
theorem total_operations (tok : count_token) (now : time_point)
    (h : tok.current < count_mod) :
    ((tok.incr now 0).current = tok.current
      ∧ (tok.incr now 0).counts.getLast? = some (now, tok.current))
    ∧ (∀ (t : time_token) (sw : time_token.stopper) (ts : List time_point),
        (t.stopN sw ts).durations.length = t.durations.length + ts.length)
    ∧ gauge_token.init.current_value = 0
    ∧ ∀ (r : registry) (name : String),
        ((r.run name).timerAt name).isSome
        ∧ ((r.count name).counterAt name).isSome
        ∧ ((r.gauge name).gaugeAt name).isSome := by
  refine ⟨⟨?_, ?_⟩, ?_, gauge_init_current_value, ?_⟩
  · simp [count_token.incr, Nat.mod_eq_of_lt h]
  · simp [count_token.incr, List.getLast?_concat, Nat.mod_eq_of_lt h]
  · intro t sw ts
    rw [stopN_durations]
    simp
  · intro r name
    refine ⟨?_, ?_, ?_⟩
    · simp only [registry.run, registry.timerAt]
      exact alist_find_emplace_self _ _ _
    · simp only [registry.count, registry.counterAt]
      exact alist_find_emplace_self _ _ _
    · simp only [registry.gauge, registry.gaugeAt]
      exact alist_find_emplace_self _ _ _

/-- C7 witness: `increment(0)` at instant 7 on a fresh counter leaves the
total at 0 and appends a sample recording 0. -/
theorem total_operations_witness :
    (count_token.init.incr 7 0).current = 0
    ∧ (count_token.init.incr 7 0).counts.getLast? = some ((7 : Int), (0 : Nat)) := by
  have h := total_operations count_token.init 7 (by decide)
  exact ⟨h.1.1, h.1.2⟩

/-- C8 (claim is right, code is wrong): the appends are NOT race-free — the
source performs `emplace_back` on a plain `std::vector` with no lock.  In the
modelled interleaving of two concurrent unsynchronised appends (both threads
read the length before either writes), the final length is 1, and the first
thread's sample `1` appears nowhere in the store: one append is lost. -/
theorem racy_append_lost :
    (racy_two_appends (⟨fun _ => none, 0⟩ : raw_vec Nat) 1 2).len = 1
    ∧ ∀ j : Nat,
        (racy_two_appends (⟨fun _ => none, 0⟩ : raw_vec Nat) 1 2).data j
          ≠ some 1 := by
  refine ⟨rfl, ?_⟩
  intro j
  by_cases hj : j = 0
  · subst hj
    simp [racy_two_appends, raw_vec.write, raw_vec.set_len]
  · simp [racy_two_appends, raw_vec.write, raw_vec.set_len, hj]

/-- C9: each freshly constructed token's store already contains exactly
10,000,000 value-initialised entries (epoch timestamp, zero value) — the
brace initialiser sets the element count, not a capacity — and each recording
operation appends its genuine sample after the existing contents. -/
theorem fresh_stores_prefilled :
    time_token.init.durations = List.replicate 10000000 ((0 : Int), (0 : Int))
    ∧ count_token.init.counts = List.replicate 10000000 ((0 : Int), (0 : Nat))
    ∧ count_token.init.current = 0
    ∧ gauge_token.init.readings = List.replicate 10000000 ((0 : Int), (0 : Int))
    ∧ (∀ (tok : time_token) (sw : time_token.stopper) (now : time_point),
        (tok.stop sw now).durations = tok.durations ++ [(now, now - sw.start)])
    ∧ (∀ (tok : count_token) (now : time_point) (k : count_type),
        (tok.incr now k).counts
          = tok.counts ++ [(now, (tok.current + k) % count_mod)])
    ∧ ∀ (tok : gauge_token) (now : time_point) (v : gauged_type),
        (tok.set now v).readings = tok.readings ++ [(now, v)] :=
  ⟨rfl, rfl, rfl, rfl, fun _ _ _ => rfl, fun _ _ _ => rfl, fun _ _ _ => rfl⟩

/-- C10: every reachable gauge state has a non-empty readings store (it
starts with ten million entries and `set` only appends), so `current_value`
always takes the `back()` branch — the `empty()` branch is dead — and the
zero read before any `set` is the value field of the last value-initialised
entry. -/
theorem gauge_readings_nonempty :
    (∀ t : gauge_token, gauge_reachable t →
        t.readings ≠ []
        ∧ ∃ p : gauge_at_time,
            t.readings.getLast? = some p ∧ t.current_value = p.2)
    ∧ gauge_token.init.readings.getLast? = some ((0 : Int), (0 : Int)) := by
  refine ⟨?_, gauge_init_getLast⟩
  intro t ht
  induction ht with
  | init =>
    refine ⟨?_, ⟨((0 : Int), (0 : Int)), gauge_init_getLast,
      gauge_init_current_value⟩⟩
    show List.replicate preallocCount ((0 : Int), (0 : Int)) ≠ []
    simp only [ne_eq, List.replicate_eq_nil_iff, preallocCount]
    norm_num
  | set t now v ht ih =>
    refine ⟨?_, ⟨(now, v), ?_, ?_⟩⟩
    · show t.readings ++ [(now, v)] ≠ []
      simp
    · show (t.readings ++ [(now, v)]).getLast? = some (now, v)
      exact List.getLast?_concat _
    · exact current_value_eq_getLast _ (now, v)
        (by simp [gauge_token.set, List.getLast?_concat])

/-- C10 witness: the fresh gauge's store is non-empty and its last entry is
the value-initialised pair. -/
theorem gauge_readings_nonempty_witness :
    gauge_token.init.readings ≠ []
    ∧ gauge_token.init.readings.getLast? = some ((0 : Int), (0 : Int)) :=
  ⟨(gauge_readings_nonempty.1 gauge_token.init gauge_reachable.init).1,
   gauge_readings_nonempty.2⟩

end Metrics
